import Mathlib

/-!
Shallow embedding of the funding-crm sync/merge core
(src/unnamed/part_002, with src/pages/api/sync.js as an earlier variant).

Conventions of the embedding:
* JavaScript strings are Lean `String`s (ASCII payloads; `toLowerCase`,
  `trim`, `includes` are modelled on code points).
* Date values (`new Date(x)` over ISO timestamps) are modelled as `Nat`;
  a missing/falsy date (`x || 0`) is the value `0`, matching the epoch
  default the code uses.
* External effects (calendar fetch, sheet read/write, the language-model
  call, the notes chain) are parameters of the functions that the source
  performs them in; an exception that the source lets escape is an
  `Except.error`.
-/

namespace FundingCrm

/-- JavaScript whitespace test used by trim and by regex \s (ASCII part). -/
def jsWhitespace (c : Char) : Bool :=
  c = ' ' || c = '\n' || c = '\t' || c = '\r' || c = '\x0c' || c = '\x0b'

/-- Prefix test on character lists. -/
def isPrefixL : List Char → List Char → Bool
  | [], _ => true
  | _ :: _, [] => false
  | a :: as, b :: bs => a = b && isPrefixL as bs

/-- Substring containment on character lists (pattern first). -/
def containsL (pat : List Char) : List Char → Bool
  | [] => isPrefixL pat []
  | c :: cs => isPrefixL pat (c :: cs) || containsL pat cs

/-- JavaScript String.prototype.includes. -/
def strIncludes (s pat : String) : Bool :=
  containsL pat.data s.data

/-- JavaScript String.prototype.toLowerCase (ASCII). -/
def lowerStr (s : String) : String :=
  String.mk (s.data.map Char.toLower)

/-- JavaScript String.prototype.trim (ASCII whitespace). -/
def jsTrim (s : String) : String :=
  String.mk (((s.data.dropWhile jsWhitespace).reverse.dropWhile jsWhitespace).reverse)

/-- JavaScript truthiness-based default for strings: a || b. -/
def jsOr (a b : String) : String :=
  if a = "" then b else a

/-- Split a character list on a separator, keeping empty fields, as
JavaScript String.prototype.split does. -/
def splitChar (sep : Char) : List Char → List (List Char)
  | [] => [[]]
  | c :: cs =>
    let r := splitChar sep cs
    if c = sep then [] :: r
    else
      match r with
      | [] => [[c]]
      | w :: ws => (c :: w) :: ws

/-- Capitalize the first character of a word, as
w.charAt(0).toUpperCase() + w.slice(1). -/
def capFirst : List Char → List Char
  | [] => []
  | c :: cs => c.toUpper :: cs

/-- Join strings with a separator, as Array.prototype.join. -/
def joinWith (sep : String) : List String → String
  | [] => ""
  | w :: ws =>
    match ws with
    | [] => w
    | _ :: _ => w ++ sep ++ joinWith sep ws

/-! ## JSON values and a parser modelling JSON.parse

The analyzed model responses only carry flat objects with string fields;
numeric literals are embedded as integers (no claim touches non-integer
numbers). Duplicate keys resolve to the last occurrence as in JavaScript. -/

inductive Json where
  | null
  | bool (b : Bool)
  | num (n : Int)
  | str (s : String)
  | arr (items : List Json)
  | obj (fields : List (String × Json))

/-- Hexadecimal digit value, for \u escapes. -/
def hexVal (c : Char) : Option Nat :=
  if c.isDigit then some (c.toNat - 48)
  else if 'a' ≤ c && c ≤ 'f' then some (c.toNat - 87)
  else if 'A' ≤ c && c ≤ 'F' then some (c.toNat - 55)
  else none

/-- Parse the body of a JSON string literal (opening quote already
consumed), handling the escape sequences JSON.parse accepts. -/
def parseStrLit : List Char → List Char → Option (String × List Char)
  | _, [] => none
  | acc, c :: rest =>
    if c = '"' then some (String.mk acc.reverse, rest)
    else if c = '\\' then
      match rest with
      | [] => none
      | e :: rest2 =>
        if e = '"' then parseStrLit ('"' :: acc) rest2
        else if e = '\\' then parseStrLit ('\\' :: acc) rest2
        else if e = '/' then parseStrLit ('/' :: acc) rest2
        else if e = 'n' then parseStrLit ('\n' :: acc) rest2
        else if e = 't' then parseStrLit ('\t' :: acc) rest2
        else if e = 'r' then parseStrLit ('\r' :: acc) rest2
        else if e = 'b' then parseStrLit ('\x08' :: acc) rest2
        else if e = 'f' then parseStrLit ('\x0c' :: acc) rest2
        else if e = 'u' then
          match rest2 with
          | h1 :: h2 :: h3 :: h4 :: rest3 =>
            match hexVal h1, hexVal h2, hexVal h3, hexVal h4 with
            | some a, some b, some c2, some d =>
              parseStrLit (Char.ofNat (((a * 16 + b) * 16 + c2) * 16 + d) :: acc) rest3
            | _, _, _, _ => none
          | _ => none
        else none
    else parseStrLit (c :: acc) rest

/-- Drop leading JSON whitespace. -/
def skipWs (cs : List Char) : List Char :=
  cs.dropWhile jsWhitespace

/-- Parse a run of decimal digits. -/
def parseDigits (cs : List Char) : Option (Nat × List Char) :=
  let ds := cs.takeWhile Char.isDigit
  if ds.isEmpty then none
  else some (ds.foldl (fun acc c => acc * 10 + (c.toNat - 48)) 0, cs.drop ds.length)

/-- Parse an integer JSON numeric literal. -/
def parseNumLit (cs : List Char) : Option (Json × List Char) :=
  match cs with
  | '-' :: rest => (parseDigits rest).map (fun p => (Json.num (-(p.1 : Int)), p.2))
  | _ => (parseDigits cs).map (fun p => (Json.num (p.1 : Int), p.2))

mutual

/-- Parse one JSON value; fuel bounds the recursion. -/
def parseVal : Nat → List Char → Option (Json × List Char)
  | 0, _ => none
  | Nat.succ fuel, cs =>
    match skipWs cs with
    | [] => none
    | c :: rest =>
      if c = '"' then
        match parseStrLit [] rest with
        | some (s, r) => some (Json.str s, r)
        | none => none
      else if c = '\x7b' then
        match skipWs rest with
        | '\x7d' :: r => some (Json.obj [], r)
        | cs2 => parseMembers fuel cs2 []
      else if c = '[' then
        match skipWs rest with
        | ']' :: r => some (Json.arr [], r)
        | cs2 => parseItems fuel cs2 []
      else if c = 't' then
        match rest with
        | 'r' :: 'u' :: 'e' :: r => some (Json.bool true, r)
        | _ => none
      else if c = 'f' then
        match rest with
        | 'a' :: 'l' :: 's' :: 'e' :: r => some (Json.bool false, r)
        | _ => none
      else if c = 'n' then
        match rest with
        | 'u' :: 'l' :: 'l' :: r => some (Json.null, r)
        | _ => none
      else parseNumLit (c :: rest)

/-- Parse the members of a JSON object after the opening brace. -/
def parseMembers : Nat → List Char → List (String × Json) → Option (Json × List Char)
  | 0, _, _ => none
  | Nat.succ fuel, cs, acc =>
    match skipWs cs with
    | '"' :: rest =>
      match parseStrLit [] rest with
      | some (key, r1) =>
        match skipWs r1 with
        | ':' :: r2 =>
          match parseVal fuel r2 with
          | some (v, r3) =>
            match skipWs r3 with
            | ',' :: r4 => parseMembers fuel r4 (acc ++ [(key, v)])
            | '\x7d' :: r4 => some (Json.obj (acc ++ [(key, v)]), r4)
            | _ => none
          | none => none
        | _ => none
      | none => none
    | _ => none

/-- Parse the items of a JSON array after the opening bracket. -/
def parseItems : Nat → List Char → List Json → Option (Json × List Char)
  | 0, _, _ => none
  | Nat.succ fuel, cs, acc =>
    match parseVal fuel cs with
    | some (v, r) =>
      match skipWs r with
      | ',' :: r2 => parseItems fuel r2 (acc ++ [v])
      | ']' :: r2 => some (Json.arr (acc ++ [v]), r2)
      | _ => none
    | none => none

end

/-- JSON.parse: the whole input, up to trailing whitespace, must be one value. -/
def parseJson (s : String) : Option Json :=
  match parseVal (2 * s.length + 2) s.data with
  | some (v, rest) => if (skipWs rest).isEmpty then some v else none
  | none => none

/-- Field lookup on a parsed object; duplicate keys resolve to the last
occurrence as JSON.parse does. Non-objects have no fields. -/
def Json.getField : Json → String → Option Json
  | Json.obj fields, k => (fields.reverse.find? (fun p => decide (p.1 = k))).map Prod.snd
  | _, _ => none

/-- Model of pA.field || defaultString on a parsed JSON value: a present,
truthy field wins, anything absent or falsy yields the default. -/
def jsonFieldString (j : Json) (key dflt : String) : String :=
  match j.getField key with
  | some (Json.str s) => if s = "" then dflt else s
  | some (Json.bool true) => "true"
  | some (Json.num n) => if n = 0 then dflt else toString n
  | _ => dflt

/-! ## Insight Extractor (analyzeWithAI, src/unnamed/part_002 lines 85-130) -/

structure Insight where
  status : String
  nextStep : String
  notes : String
deriving DecidableEq, Repr

/-- The insufficient-content default (part_002 line 88). -/
def insufficientInsight (sourceType : String) : Insight :=
  { status := "Manual Review Needed"
    nextStep := "Insufficient content for AI"
    notes := "No meaningful content from " ++ sourceType ++ "." }

/-- The caught-failure default (part_002 line 130). -/
def aiFailedInsight (msg : String) : Insight :=
  { status := "Manual Review", nextStep := "Review AI", notes := "AI failed: " ++ msg }

/-- Strip a leading three-backtick json fence and a trailing three-backtick
fence, modelling the replace of the fence regex with the empty string
(part_002 line 127). -/
def stripJsonFences (s : String) : String :=
  let cs :=
    if isPrefixL "```json".data s.data then
      (s.data.drop 7).dropWhile jsWhitespace
    else s.data
  let r := cs.reverse.dropWhile jsWhitespace
  let cs2 := if isPrefixL "```".data r then (r.drop 3).reverse else cs
  String.mk cs2

/-- The greedy brace regex recovery (part_002 line 128): the match runs from
the first opening brace that precedes the last closing brace, through that
last closing brace. -/
def extractBraces (s : String) : Option String :=
  let cs := s.data
  match cs.reverse.findIdx? (fun c => c = '\x7d') with
  | none => none
  | some rj =>
    let upTo := cs.take (cs.length - rj)
    match upTo.findIdx? (fun c => c = '\x7b') with
    | none => none
    | some i => some (String.mk (upTo.drop i))

/-- Response handling of analyzeWithAI: strict JSON.parse of the fence-
stripped, trimmed text; on failure, reparse the brace-regex match; a parse
that still fails is the thrown error (the JavaScript engine message of the
second JSON.parse failure is abstracted to the same text the code throws
when the regex finds nothing). -/
def parseAIResponse (text : String) : Except String Insight :=
  let fromJson (j : Json) : Insight :=
    { status := jsonFieldString j "status" "Manual Review"
      nextStep := jsonFieldString j "nextStep" "Review AI"
      notes := jsonFieldString j "notes" "AI notes missing." }
  match parseJson (jsTrim (stripJsonFences text)) with
  | some j => Except.ok (fromJson j)
  | none =>
    match extractBraces text with
    | some sub =>
      match parseJson sub with
      | some j => Except.ok (fromJson j)
      | none => Except.error "AI response not valid JSON."
    | none => Except.error "AI response not valid JSON."

/-- Environment of analyzeWithAI: which API keys are configured and the
outcome of the single model call (error = the client call threw; ok none =
an empty/missing completion; ok some = the raw response text). -/
structure AIEnv where
  openaiKey : Bool
  geminiKey : Bool
  reply : Except String (Option String)

/-- analyzeWithAI (part_002 lines 85-130). Returns the insight outcome
(error = an exception escaping to the caller) together with the number of
language-model invocations performed. getAIClient is called before the
try block, so its configuration error escapes. -/
def analyzeWithAI (env : AIEnv) (notesContent contactName sourceType : String) :
    Except String Insight × Nat :=
  let _ := contactName
  if notesContent = "" || (jsTrim notesContent).length < 20 then
    (Except.ok (insufficientInsight sourceType), 0)
  else if !(env.openaiKey || env.geminiKey) then
    (Except.error "No AI API key configured", 0)
  else
    match env.reply with
    | Except.error e => (Except.ok (aiFailedInsight e), 1)
    | Except.ok none => (Except.ok (aiFailedInsight "AI response empty."), 1)
    | Except.ok (some text) =>
      match parseAIResponse text with
      | Except.ok i => (Except.ok i, 1)
      | Except.error m => (Except.ok (aiFailedInsight m), 1)

/-! ## Data model (Event, Contact) and the exclusion policy -/

/-- Calendar event as the handler consumes it: the attendee list models
attendees map a.email filter Boolean (absent emails are empty strings and
get filtered where the source filters), start is the resolved
start.dateTime || start.date instant. -/
structure Event where
  summary : String
  description : String
  attendees : List String
  organizer : String
  start : Nat
deriving DecidableEq, Repr

/-- Contact row of the sheet store (columns A-G). -/
structure Contact where
  name : String
  email : String
  status : String
  nextStep : String
  notes : String
  lastMeeting : Nat
  createdAt : Nat
deriving DecidableEq, Repr

/-- shouldSkipEmail (part_002 lines 64-77); svcEmail models
process.env.GOOGLE_SERVICE_EMAIL (none = unset). -/
def shouldSkipEmail (svcEmail : Option String) (email : String) : Bool :=
  if email = "" then true
  else
    let emailLower := lowerStr email
    if strIncludes emailLower "@viehq.com" || emailLower = "fred@fireflies.ai" ||
        (match svcEmail with
         | some s => emailLower = lowerStr s
         | none => false) then true
    else if (["@noreply.com", "@notifications.", "@calendly.com", "@zoom.us",
              "@teams.microsoft.com", "@meet.google.com"].any
              (fun domain => strIncludes emailLower domain)) then true
    else false

/-- getNameFromEmail (part_002 lines 79-83). -/
def getNameFromEmail (email : String) : String :=
  if email = "" || !strIncludes email "@" then "Unknown Name"
  else
    let localPart := email.data.takeWhile (fun c => c ≠ '@')
    let replaced := localPart.map (fun c => if c = '.' || c = '_' || c = '-' then ' ' else c)
    joinWith " " ((splitChar ' ' replaced).map (fun w => String.mk (capFirst w)))

/-- The fresh contact built on first sighting of a new attendee email
(part_002 line 160). -/
def newContact (now : Nat) (email : String) (start : Nat) : Contact :=
  { name := getNameFromEmail email
    email := email
    status := "New Contact"
    nextStep := "Initial outreach"
    notes := ""
    lastMeeting := start
    createdAt := now }

/-! ## The in-run contact map (a JavaScript Map keyed by the raw email) -/

/-- Insertion-ordered association list modelling the processedContacts Map
and the uniqueContacts Map. -/
abbrev CMap := List (String × Contact)

/-- Map.prototype.get (first binding of the key). -/
def mapGet : CMap → String → Option Contact
  | [], _ => none
  | (k', v) :: rest, k => if k' = k then some v else mapGet rest k

/-- Map.prototype.set: replace the binding in place, or append a new one. -/
def mapSet : CMap → String → Contact → CMap
  | [], k, v => [(k, v)]
  | (k', v') :: rest, k, v =>
    if k' = k then (k, v) :: rest else (k', v') :: mapSet rest k v

/-- Map.prototype.values as a list, in insertion order. -/
def mapValues (m : CMap) : List Contact :=
  m.map Prod.snd

/-- Key list of the map. -/
def mapKeys (m : CMap) : List String :=
  m.map Prod.fst

/-! ## The per-attendee merge step of the handler (part_002 lines 148-170)

The composite of getMeetingNotes and analyzeWithAI as observed by the
handler is abstracted as insightFor : attendee email and event to an
optional Insight; none covers both "no notes found" and "analysis threw"
(both leave the contact untouched, lines 161-165). -/

/-- Contact lookup of the handler (line 159 with the line 160 default):
the first existing contact whose raw email matches exactly, else a fresh
contact. -/
def baseContact (now : Nat) (existing : List Contact) (email : String) (start : Nat) :
    Contact :=
  match existing.find? (fun c => decide (c.email = email)) with
  | some c => c
  | none => newContact now email start

/-- Application of a resolved analysis to the contact (line 163); absent
analysis (no notes, or analyzeWithAI threw) leaves the contact untouched. -/
def mergeInsight (contact : Contact) : Option Insight → Contact
  | some analysis =>
    { contact with
      status := jsOr analysis.status contact.status
      nextStep := jsOr analysis.nextStep contact.nextStep
      notes := jsOr analysis.notes contact.notes }
  | none => contact

/-- Advance lastMeeting when the event is strictly later (lines 156, 166). -/
def bumpLastMeeting (start : Nat) (contact : Contact) : Contact :=
  if start > contact.lastMeeting then { contact with lastMeeting := start }
  else contact

def processAttendee (svcEmail : Option String) (now : Nat)
    (insightFor : String → Event → Option Insight) (existing : List Contact)
    (ev : Event) (m : CMap) (email : String) : CMap :=
  if shouldSkipEmail svcEmail email then m
  else
    match mapGet m email with
    | some exContact =>
      if ev.start > exContact.lastMeeting then
        mapSet m email { exContact with lastMeeting := ev.start }
      else m
    | none =>
      mapSet m email
        (bumpLastMeeting ev.start
          (mergeInsight (baseContact now existing email ev.start) (insightFor email ev)))

/-- One event of the handler loop: attendee emails, filtered truthy. -/
def processEvent (svcEmail : Option String) (now : Nat)
    (insightFor : String → Event → Option Insight) (existing : List Contact)
    (m : CMap) (ev : Event) : CMap :=
  (ev.attendees.filter (fun e => e ≠ "")).foldl
    (processAttendee svcEmail now insightFor existing ev) m

/-- The whole handler loop: the updatedContacts value list (part_002
lines 147-171). -/
def processRun (svcEmail : Option String) (now : Nat)
    (insightFor : String → Event → Option Insight)
    (events : List Event) (existing : List Contact) : List Contact :=
  mapValues (events.foldl (processEvent svcEmail now insightFor existing) [])

/-! ## Store read and write (part_002 lines 238-255) -/

/-- The row filter of getSheetContacts (line 243): keep rows with a truthy
email that the exclusion policy does not skip. -/
def readSheetContacts (svcEmail : Option String) (rows : List Contact) : List Contact :=
  rows.filter (fun c => c.email ≠ "" && !shouldSkipEmail svcEmail c.email)

/-- One step of the uniqueContacts dedup of updateSheetContacts (line 249). -/
def cleanFold (svcEmail : Option String) (m : CMap) (c : Contact) : CMap :=
  if c.email ≠ "" && !shouldSkipEmail svcEmail c.email then
    match mapGet m c.email with
    | some ex => if c.lastMeeting > ex.lastMeeting then mapSet m c.email c else m
    | none => mapSet m c.email c
  else m

/-- The cleanedContacts list that updateSheetContacts writes over the whole
Contacts!A:G range (lines 248-252). -/
def cleanedContacts (svcEmail : Option String) (contacts : List Contact) : List Contact :=
  mapValues (contacts.foldl (cleanFold svcEmail) [])

/-! ## Sync orchestrator (handler, part_002 lines 138-175) -/

structure SyncSummary where
  contactsProcessed : Nat
  eventsProcessed : Nat
deriving DecidableEq, Repr

/-- Result of one run plus the contact store it leaves behind. The write
replaces the stored range with the cleaned contact list, per the store's
writeAll contract; a failed write leaves the pre-run store. -/
structure RunOutcome where
  result : Except String SyncSummary
  store : List Contact
deriving Repr

/-- runSync: the handler pipeline after authentication. fetchResult is the
outcome of getCalendarEvents (its exceptions are run-fatal); readError,
when present, is the exception getSheetContacts catches internally - the
code then continues with an empty contact list; writeError, when present,
is the exception of the single sheet update call inside
updateSheetContacts, which is run-fatal and leaves the store unchanged.
recordSyncTimestamp failures are caught in the source and do not affect
contacts, so they are not modelled. -/
def runSync (svcEmail : Option String) (now : Nat)
    (insightFor : String → Event → Option Insight)
    (fetchResult : Except String (List Event))
    (readError : Option String) (writeError : Option String)
    (sheet : List Contact) : RunOutcome :=
  match fetchResult with
  | Except.error m => { result := Except.error m, store := sheet }
  | Except.ok events =>
    let existing :=
      match readError with
      | some _ => []
      | none => readSheetContacts svcEmail sheet
    let updatedContacts := processRun svcEmail now insightFor events existing
    if updatedContacts.isEmpty then
      { result := Except.ok { contactsProcessed := updatedContacts.length
                              eventsProcessed := events.length }
        store := sheet }
    else
      match writeError with
      | some m => { result := Except.error m, store := sheet }
      | none =>
        { result := Except.ok { contactsProcessed := updatedContacts.length
                                eventsProcessed := events.length }
          store := cleanedContacts svcEmail updatedContacts }

/-! ## Event Selector (getCalendarEvents, part_002 lines 215-236) -/

def investorKeywords : List String :=
  ["investor", "pitch", "intro", "funding", "vc", "investment", "demo", "meeting",
   "vie", "capital", "ventures", "fund", "consultation", "session", "call", "sync",
   "discussion"]

/-- Word-character test of the regex \b boundary. -/
def isWordChar (c : Char) : Bool :=
  c.isAlphanum || c = '_'

/-- Whether the word occurs with \b boundaries on both sides, scanning with
the preceding character. -/
def hasBoundedWordAux (w : List Char) (prev : Option Char) : List Char → Bool
  | [] => false
  | c :: cs =>
    (isPrefixL w (c :: cs) &&
     (match prev with
      | none => true
      | some p => !isWordChar p) &&
     (match (c :: cs).drop w.length with
      | [] => true
      | c2 :: _ => !isWordChar c2)) ||
    hasBoundedWordAux w (some c) cs

/-- Test of the \bfund\b pattern on an already-lowercased string. -/
def hasWordFund (s : String) : Bool :=
  hasBoundedWordAux "fund".data none s.data

/-- Test of an at-sign followed (possibly later) by the given literal, the
shape of the @.*word patterns, on an already-lowercased string. -/
def afterAtContains (pat : String) (s : String) : Bool :=
  match s.data.dropWhile (fun c => c ≠ '@') with
  | [] => false
  | _ :: r => containsL pat.data r

/-- The vcPatterns regex list (part_002 line 219), each as a test on an
already-lowercased string; the case-insensitive flags are absorbed by the
lowercasing the caller performs. -/
def vcPatterns : List (String → Bool) :=
  [fun s => strIncludes s "venture",
   fun s => strIncludes s "capital",
   hasWordFund,
   fun s => strIncludes s "partner",
   fun s => strIncludes s "investment",
   fun s => strIncludes s ".vc",
   afterAtContains "ventures",
   afterAtContains "capital",
   afterAtContains "fund"]

/-- The relevance filter of getCalendarEvents (lines 225-233). -/
def eventMatchesFilter (ev : Event) : Bool :=
  let title := lowerStr ev.summary
  let description := lowerStr ev.description
  let attendeeEmails := (ev.attendees.map lowerStr).filter (fun e => e ≠ "")
  let organizerEmail := lowerStr ev.organizer
  let hasKeywords := investorKeywords.any
    (fun k => strIncludes title k || strIncludes description k)
  let hasVCPatterns := vcPatterns.any
    (fun p => p title || p description || attendeeEmails.any p || p organizerEmail)
  let hasBusinessAttendees := attendeeEmails.any
    (fun e => !strIncludes e "viehq.com" && !strIncludes e "gmail.com" &&
              !strIncludes e "yahoo.com" && !strIncludes e "hotmail.com" &&
              strIncludes e "@")
  hasKeywords || hasVCPatterns || hasBusinessAttendees

/-- The selection getCalendarEvents applies to the fetched window. -/
def filterCalendarEvents (events : List Event) : List Event :=
  events.filter eventMatchesFilter

/-! ## Lemmas about the insertion-ordered map -/

theorem mapGet_mapSet_self (m : CMap) (k : String) (v : Contact) :
    mapGet (mapSet m k v) k = some v := by
  induction m with
  | nil => simp [mapSet, mapGet]
  | cons p rest ih =>
    obtain ⟨k', v'⟩ := p
    by_cases h : k' = k
    · simp [mapSet, mapGet, h]
    · simp [mapSet, mapGet, h, ih]

theorem mapGet_mapSet_ne (m : CMap) (k k' : String) (v : Contact) (h : k' ≠ k) :
    mapGet (mapSet m k v) k' = mapGet m k' := by
  induction m with
  | nil => simp [mapSet, mapGet, Ne.symm h]
  | cons p rest ih =>
    obtain ⟨k₀, v₀⟩ := p
    by_cases h0 : k₀ = k
    · subst h0
      simp [mapSet, mapGet, Ne.symm h]
    · by_cases h1 : k₀ = k'
      · subst h1
        simp [mapSet, mapGet, h0]
      · simp [mapSet, mapGet, h0, h1, ih]

theorem mapGet_eq_none_iff (m : CMap) (k : String) :
    mapGet m k = none ↔ k ∉ mapKeys m := by
  induction m with
  | nil => simp [mapGet, mapKeys]
  | cons p rest ih =>
    obtain ⟨k₀, v₀⟩ := p
    by_cases h : k₀ = k
    · subst h
      simp [mapGet, mapKeys]
    · simp [mapGet, mapKeys, h, ih, Ne.symm h]

theorem mapKeys_mapSet_of_get_none (m : CMap) (k : String) (v : Contact)
    (h : mapGet m k = none) : mapKeys (mapSet m k v) = mapKeys m ++ [k] := by
  induction m with
  | nil => simp [mapSet, mapKeys]
  | cons p rest ih =>
    obtain ⟨k₀, v₀⟩ := p
    by_cases h0 : k₀ = k
    · subst h0
      simp [mapGet] at h
    · simp only [mapGet, if_neg h0] at h
      have hr := ih h
      simp only [mapKeys] at hr
      simp only [mapSet, if_neg h0, mapKeys, List.map_cons, List.cons_append, hr]

theorem mapKeys_mapSet_of_get_some (m : CMap) (k : String) (v w : Contact)
    (h : mapGet m k = some w) : mapKeys (mapSet m k v) = mapKeys m := by
  induction m with
  | nil => simp [mapGet] at h
  | cons p rest ih =>
    obtain ⟨k₀, v₀⟩ := p
    by_cases h0 : k₀ = k
    · subst h0
      simp [mapSet, mapKeys]
    · simp only [mapGet, if_neg h0] at h
      have hr := ih h
      simp only [mapKeys] at hr
      simp only [mapSet, if_neg h0, mapKeys, List.map_cons, hr]

theorem keysNodup_mapSet (m : CMap) (k : String) (v : Contact)
    (h : (mapKeys m).Nodup) : (mapKeys (mapSet m k v)).Nodup := by
  cases hg : mapGet m k with
  | none =>
    rw [mapKeys_mapSet_of_get_none m k v hg]
    have hk : k ∉ mapKeys m := (mapGet_eq_none_iff m k).mp hg
    simp [List.nodup_append, h, hk]
  | some w =>
    rw [mapKeys_mapSet_of_get_some m k v w hg]
    exact h

theorem mem_values_of_mapGet (m : CMap) (k : String) (c : Contact)
    (h : mapGet m k = some c) : c ∈ mapValues m := by
  induction m with
  | nil => simp [mapGet] at h
  | cons p rest ih =>
    obtain ⟨k₀, v₀⟩ := p
    by_cases h0 : k₀ = k
    · simp only [mapGet, if_pos h0] at h
      injection h with h
      simp [mapValues, h]
    · simp only [mapGet, if_neg h0] at h
      simp only [mapValues, List.map_cons, List.mem_cons]
      exact Or.inr (ih h)

theorem mapGet_mem_entries (m : CMap) (k : String) (c : Contact)
    (h : mapGet m k = some c) : (k, c) ∈ m := by
  induction m with
  | nil => simp [mapGet] at h
  | cons p rest ih =>
    obtain ⟨k₀, v₀⟩ := p
    by_cases h0 : k₀ = k
    · subst h0
      simp only [mapGet, if_pos rfl] at h
      injection h with h
      simp [h]
    · simp only [mapGet, if_neg h0] at h
      exact List.mem_cons_of_mem _ (ih h)

theorem mapGet_of_mem_entries (m : CMap) (k : String) (c : Contact)
    (hn : (mapKeys m).Nodup) (h : (k, c) ∈ m) : mapGet m k = some c := by
  induction m with
  | nil => simp at h
  | cons p rest ih =>
    obtain ⟨k₀, v₀⟩ := p
    simp only [mapKeys, List.map_cons, List.nodup_cons] at hn
    rcases List.mem_cons.mp h with heq | hmem
    · injection heq with h1 h2
      subst h1
      subst h2
      simp [mapGet]
    · have hk : k₀ ≠ k := by
        intro hkk
        subst hkk
        exact hn.1 (List.mem_map_of_mem Prod.fst hmem)
      simp only [mapGet, if_neg hk]
      exact ih hn.2 hmem

theorem exists_key_of_mem_values (m : CMap) (c : Contact)
    (hn : (mapKeys m).Nodup) (h : c ∈ mapValues m) :
    ∃ k, mapGet m k = some c := by
  simp only [mapValues, List.mem_map] at h
  obtain ⟨p, hp, hpc⟩ := h
  subst hpc
  exact ⟨p.1, mapGet_of_mem_entries m p.1 p.2 hn (by simpa using hp)⟩

theorem mem_values_mapSet (m : CMap) (k : String) (v w : Contact)
    (h : w ∈ mapValues (mapSet m k v)) : w ∈ mapValues m ∨ w = v := by
  induction m with
  | nil =>
    simp [mapSet, mapValues] at h
    exact Or.inr h
  | cons p rest ih =>
    obtain ⟨k₀, v₀⟩ := p
    by_cases h0 : k₀ = k
    · simp only [mapSet, if_pos h0, mapValues, List.map_cons, List.mem_cons] at h
      rcases h with h | h
      · exact Or.inr h
      · exact Or.inl (by simp [mapValues, h])
    · simp only [mapSet, if_neg h0, mapValues, List.map_cons, List.mem_cons] at h
      rcases h with h | h
      · exact Or.inl (by simp [mapValues, h])
      · rcases ih h with h' | h'
        · exact Or.inl (by simp only [mapValues, List.map_cons, List.mem_cons]; exact Or.inr h')
        · exact Or.inr h'

theorem mem_entries_mapSet (m : CMap) (k : String) (v : Contact)
    (p : String × Contact) (h : p ∈ mapSet m k v) : p ∈ m ∨ p = (k, v) := by
  induction m with
  | nil =>
    simp [mapSet] at h
    exact Or.inr h
  | cons q rest ih =>
    obtain ⟨k₀, v₀⟩ := q
    by_cases h0 : k₀ = k
    · simp only [mapSet, if_pos h0, List.mem_cons] at h
      rcases h with h | h
      · exact Or.inr h
      · exact Or.inl (List.mem_cons_of_mem _ h)
    · simp only [mapSet, if_neg h0, List.mem_cons] at h
      rcases h with h | h
      · exact Or.inl (by simp [h])
      · rcases ih h with h' | h'
        · exact Or.inl (List.mem_cons_of_mem _ h')
        · exact Or.inr h'

/-! ## Lemmas about the per-attendee merge step -/

theorem mergeInsight_email (c : Contact) (i : Option Insight) :
    (mergeInsight c i).email = c.email := by
  cases i <;> rfl

theorem mergeInsight_lastMeeting (c : Contact) (i : Option Insight) :
    (mergeInsight c i).lastMeeting = c.lastMeeting := by
  cases i <;> rfl

theorem bumpLastMeeting_email (s : Nat) (c : Contact) :
    (bumpLastMeeting s c).email = c.email := by
  unfold bumpLastMeeting
  split <;> rfl

theorem start_le_bumpLastMeeting (s : Nat) (c : Contact) :
    s ≤ (bumpLastMeeting s c).lastMeeting := by
  unfold bumpLastMeeting
  split
  case isTrue h => exact le_refl s
  case isFalse h => exact Nat.not_lt.mp h

theorem self_le_bumpLastMeeting (s : Nat) (c : Contact) :
    c.lastMeeting ≤ (bumpLastMeeting s c).lastMeeting := by
  unfold bumpLastMeeting
  split
  case isTrue h => exact le_of_lt h
  case isFalse h => exact le_refl _

theorem baseContact_email (now : Nat) (existing : List Contact) (email : String)
    (start : Nat) : (baseContact now existing email start).email = email := by
  unfold baseContact
  cases hf : existing.find? (fun c => decide (c.email = email)) with
  | none => simp [newContact]
  | some cf =>
    show cf.email = email
    have := List.find?_some hf
    simpa using this

theorem baseContact_lastMeeting_ge (now : Nat) (existing : List Contact)
    (email : String) (start : Nat)
    (hE : (existing.map (fun c => c.email)).Nodup)
    (c₀ : Contact) (h₀ : c₀ ∈ existing) (he : c₀.email = email) :
    c₀.lastMeeting ≤ (baseContact now existing email start).lastMeeting := by
  unfold baseContact
  cases hf : existing.find? (fun c => decide (c.email = email)) with
  | none =>
    exact absurd (decide_eq_true he) (List.find?_eq_none.mp hf c₀ h₀)
  | some cf =>
    have hcf : cf ∈ existing := List.mem_of_find?_eq_some hf
    have hcfe : cf.email = email := by
      have := List.find?_some hf
      simpa using this
    have hceq : c₀ = cf := List.inj_on_of_nodup_map hE h₀ hcf (by rw [he, hcfe])
    show c₀.lastMeeting ≤ cf.lastMeeting
    rw [hceq]

/-- Invariant of one entry of the in-run map: the value's email is the key,
the key passed the exclusion policy, and lastMeeting dominates every
pre-run stored value for that exact email. -/
def EntryInv (svcEmail : Option String) (existing : List Contact)
    (k : String) (c : Contact) : Prop :=
  c.email = k ∧ shouldSkipEmail svcEmail k = false ∧
    ∀ c₀ ∈ existing, c₀.email = k → c₀.lastMeeting ≤ c.lastMeeting

/-- Invariant of the whole in-run map. -/
def MapInv (svcEmail : Option String) (existing : List Contact) (m : CMap) : Prop :=
  (mapKeys m).Nodup ∧ ∀ k c, mapGet m k = some c → EntryInv svcEmail existing k c

theorem mapInv_nil (svcEmail : Option String) (existing : List Contact) :
    MapInv svcEmail existing [] :=
  ⟨List.nodup_nil, fun k c h => by simp [mapGet] at h⟩

theorem processAttendee_mapGet_ne (svcEmail : Option String) (now : Nat)
    (insightFor : String → Event → Option Insight) (existing : List Contact)
    (ev : Event) (m : CMap) (email k : String) (hk : k ≠ email) :
    mapGet (processAttendee svcEmail now insightFor existing ev m email) k =
      mapGet m k := by
  unfold processAttendee
  split
  · rfl
  · split
    · split
      · exact mapGet_mapSet_ne m email k _ hk
      · rfl
    · exact mapGet_mapSet_ne m email k _ hk

theorem processAttendee_mono (svcEmail : Option String) (now : Nat)
    (insightFor : String → Event → Option Insight) (existing : List Contact)
    (ev : Event) (m : CMap) (email k : String) (c : Contact)
    (hg : mapGet m k = some c) :
    ∃ c', mapGet (processAttendee svcEmail now insightFor existing ev m email) k =
      some c' ∧ c.lastMeeting ≤ c'.lastMeeting := by
  by_cases hk : k = email
  · subst hk
    unfold processAttendee
    split
    · exact ⟨c, hg, le_refl _⟩
    · split
      · rename_i exContact heq
        simp only [hg, Option.some.injEq] at heq
        subst heq
        split
        · rename_i hlt
          exact ⟨_, mapGet_mapSet_self m k _, le_of_lt hlt⟩
        · exact ⟨c, hg, le_refl _⟩
      · rename_i heq
        rw [hg] at heq
        exact absurd heq (by simp)
  · rw [processAttendee_mapGet_ne svcEmail now insightFor existing ev m email k hk]
    exact ⟨c, hg, le_refl _⟩

theorem processAttendee_inv (svcEmail : Option String) (now : Nat)
    (insightFor : String → Event → Option Insight) (existing : List Contact)
    (ev : Event) (m : CMap) (email : String)
    (hE : (existing.map (fun c => c.email)).Nodup)
    (hm : MapInv svcEmail existing m) :
    MapInv svcEmail existing
      (processAttendee svcEmail now insightFor existing ev m email) := by
  obtain ⟨hnd, hinv⟩ := hm
  unfold processAttendee
  split
  case isTrue => exact ⟨hnd, hinv⟩
  case isFalse hskip =>
    have hskip' : shouldSkipEmail svcEmail email = false := by
      simpa using hskip
    split
    · rename_i exContact heq
      split
      · rename_i hlt
        refine ⟨keysNodup_mapSet m email _ hnd, fun k c hc => ?_⟩
        by_cases hk : k = email
        · subst hk
          rw [mapGet_mapSet_self] at hc
          injection hc with hc
          obtain ⟨he, hs, hb⟩ := hinv k exContact heq
          refine ⟨?_, hs, ?_⟩
          · rw [← hc]
            exact he
          · intro c₀ h₀ he₀
            rw [← hc]
            exact le_trans (hb c₀ h₀ he₀) (le_of_lt hlt)
        · rw [mapGet_mapSet_ne m email k _ hk] at hc
          exact hinv k c hc
      · exact ⟨hnd, hinv⟩
    · rename_i heq
      refine ⟨keysNodup_mapSet m email _ hnd, fun k c hc => ?_⟩
      by_cases hk : k = email
      · subst hk
        rw [mapGet_mapSet_self] at hc
        injection hc with hc
        refine ⟨?_, hskip', ?_⟩
        · rw [← hc, bumpLastMeeting_email, mergeInsight_email, baseContact_email]
        · intro c₀ h₀ he₀
          rw [← hc]
          calc c₀.lastMeeting
              ≤ (baseContact now existing k ev.start).lastMeeting :=
                baseContact_lastMeeting_ge now existing k ev.start hE c₀ h₀ he₀
            _ = (mergeInsight (baseContact now existing k ev.start)
                  (insightFor k ev)).lastMeeting :=
                (mergeInsight_lastMeeting _ _).symm
            _ ≤ _ := self_le_bumpLastMeeting _ _
      · rw [mapGet_mapSet_ne m email k _ hk] at hc
        exact hinv k c hc

theorem processAttendee_coverage (svcEmail : Option String) (now : Nat)
    (insightFor : String → Event → Option Insight) (existing : List Contact)
    (ev : Event) (m : CMap) (email : String)
    (hskip : shouldSkipEmail svcEmail email = false) :
    ∃ c, mapGet (processAttendee svcEmail now insightFor existing ev m email) email =
      some c ∧ ev.start ≤ c.lastMeeting := by
  unfold processAttendee
  rw [if_neg (by simp [hskip])]
  split
  · rename_i exContact heq
    split
    · rename_i hlt
      exact ⟨_, mapGet_mapSet_self m email _, le_refl _⟩
    · rename_i hnlt
      exact ⟨exContact, heq, Nat.not_lt.mp hnlt⟩
  · exact ⟨_, mapGet_mapSet_self m email _, start_le_bumpLastMeeting _ _⟩

/-! ## Lemmas lifted over the attendee and event folds -/

theorem foldAttendees_mono (svcEmail : Option String) (now : Nat)
    (insightFor : String → Event → Option Insight) (existing : List Contact)
    (ev : Event) (es : List String) :
    ∀ (m : CMap) (k : String) (c : Contact), mapGet m k = some c →
      ∃ c', mapGet (es.foldl (processAttendee svcEmail now insightFor existing ev) m) k =
        some c' ∧ c.lastMeeting ≤ c'.lastMeeting := by
  induction es with
  | nil => exact fun m k c h => ⟨c, h, le_refl _⟩
  | cons e rest ih =>
    intro m k c h
    obtain ⟨c1, h1, le1⟩ :=
      processAttendee_mono svcEmail now insightFor existing ev m e k c h
    obtain ⟨c2, h2, le2⟩ := ih _ k c1 h1
    exact ⟨c2, h2, le_trans le1 le2⟩

theorem foldAttendees_inv (svcEmail : Option String) (now : Nat)
    (insightFor : String → Event → Option Insight) (existing : List Contact)
    (ev : Event) (es : List String)
    (hE : (existing.map (fun c => c.email)).Nodup) :
    ∀ m : CMap, MapInv svcEmail existing m →
      MapInv svcEmail existing
        (es.foldl (processAttendee svcEmail now insightFor existing ev) m) := by
  induction es with
  | nil => exact fun m hm => hm
  | cons e rest ih =>
    intro m hm
    exact ih _ (processAttendee_inv svcEmail now insightFor existing ev m e hE hm)

theorem foldAttendees_coverage (svcEmail : Option String) (now : Nat)
    (insightFor : String → Event → Option Insight) (existing : List Contact)
    (ev : Event) (es : List String) (e : String)
    (he : e ∈ es) (hskip : shouldSkipEmail svcEmail e = false) :
    ∀ m : CMap,
      ∃ c, mapGet (es.foldl (processAttendee svcEmail now insightFor existing ev) m) e =
        some c ∧ ev.start ≤ c.lastMeeting := by
  induction es with
  | nil => cases he
  | cons a rest ih =>
    intro m
    rcases List.mem_cons.mp he with rfl | hmem
    · obtain ⟨c, hc, hle⟩ :=
        processAttendee_coverage svcEmail now insightFor existing ev m e hskip
      obtain ⟨c', hc', hle'⟩ :=
        foldAttendees_mono svcEmail now insightFor existing ev rest _ e c hc
      exact ⟨c', hc', le_trans hle hle'⟩
    · exact ih hmem _

theorem foldEvents_mono (svcEmail : Option String) (now : Nat)
    (insightFor : String → Event → Option Insight) (existing : List Contact)
    (events : List Event) :
    ∀ (m : CMap) (k : String) (c : Contact), mapGet m k = some c →
      ∃ c', mapGet (events.foldl (processEvent svcEmail now insightFor existing) m) k =
        some c' ∧ c.lastMeeting ≤ c'.lastMeeting := by
  induction events with
  | nil => exact fun m k c h => ⟨c, h, le_refl _⟩
  | cons ev rest ih =>
    intro m k c h
    obtain ⟨c1, h1, le1⟩ :=
      foldAttendees_mono svcEmail now insightFor existing ev
        (ev.attendees.filter (fun e => e ≠ "")) m k c h
    obtain ⟨c2, h2, le2⟩ := ih _ k c1 h1
    exact ⟨c2, h2, le_trans le1 le2⟩

theorem foldEvents_inv (svcEmail : Option String) (now : Nat)
    (insightFor : String → Event → Option Insight) (existing : List Contact)
    (events : List Event)
    (hE : (existing.map (fun c => c.email)).Nodup) :
    ∀ m : CMap, MapInv svcEmail existing m →
      MapInv svcEmail existing
        (events.foldl (processEvent svcEmail now insightFor existing) m) := by
  induction events with
  | nil => exact fun m hm => hm
  | cons ev rest ih =>
    intro m hm
    exact ih _
      (foldAttendees_inv svcEmail now insightFor existing ev
        (ev.attendees.filter (fun e => e ≠ "")) hE m hm)

theorem foldEvents_coverage (svcEmail : Option String) (now : Nat)
    (insightFor : String → Event → Option Insight) (existing : List Contact)
    (events : List Event) (ev : Event) (e : String)
    (hev : ev ∈ events) (hatt : e ∈ ev.attendees)
    (hne : e ≠ "") (hskip : shouldSkipEmail svcEmail e = false) :
    ∀ m : CMap,
      ∃ c, mapGet (events.foldl (processEvent svcEmail now insightFor existing) m) e =
        some c ∧ ev.start ≤ c.lastMeeting := by
  induction events with
  | nil => cases hev
  | cons a rest ih =>
    intro m
    rcases List.mem_cons.mp hev with rfl | hmem
    · obtain ⟨c, hc, hle⟩ :=
        foldAttendees_coverage svcEmail now insightFor existing ev
          (ev.attendees.filter (fun e => e ≠ "")) e
          (List.mem_filter.mpr ⟨hatt, by simpa using hne⟩) hskip m
      obtain ⟨c', hc', hle'⟩ :=
        foldEvents_mono svcEmail now insightFor existing rest _ e c hc
      exact ⟨c', hc', le_trans hle hle'⟩
    · exact ih hmem _

/-! ## Lemmas about the write-side dedup (updateSheetContacts) -/

theorem cleanFold_values_subset (svcEmail : Option String) (m : CMap)
    (c w : Contact) (h : w ∈ mapValues (cleanFold svcEmail m c)) :
    w ∈ mapValues m ∨ w = c := by
  unfold cleanFold at h
  split at h
  · split at h
    · split at h
      · exact mem_values_mapSet m c.email c w h
      · exact Or.inl h
    · exact mem_values_mapSet m c.email c w h
  · exact Or.inl h

theorem foldClean_values_subset (svcEmail : Option String) (cs : List Contact) :
    ∀ (m : CMap) (w : Contact),
      w ∈ mapValues (cs.foldl (cleanFold svcEmail) m) → w ∈ mapValues m ∨ w ∈ cs := by
  induction cs with
  | nil => exact fun m w h => Or.inl h
  | cons c rest ih =>
    intro m w h
    rcases ih _ w h with h' | h'
    · rcases cleanFold_values_subset svcEmail m c w h' with h'' | h''
      · exact Or.inl h''
      · exact Or.inr (by simp [h''])
    · exact Or.inr (List.mem_cons_of_mem _ h')

theorem mem_of_mem_cleanedContacts (svcEmail : Option String) (cs : List Contact)
    (w : Contact) (h : w ∈ cleanedContacts svcEmail cs) : w ∈ cs := by
  rcases foldClean_values_subset svcEmail cs [] w h with h' | h'
  · simp [mapValues] at h'
  · exact h'

/-- Invariant of the dedup map: keys are unique, each value is stored under
its own email, and every key passed the truthy-and-unskipped write filter. -/
def CleanInv (svcEmail : Option String) (m : CMap) : Prop :=
  (mapKeys m).Nodup ∧
    ∀ p ∈ m, p.2.email = p.1 ∧ p.1 ≠ "" ∧ shouldSkipEmail svcEmail p.1 = false

theorem cleanFold_inv (svcEmail : Option String) (m : CMap) (c : Contact)
    (hm : CleanInv svcEmail m) : CleanInv svcEmail (cleanFold svcEmail m c) := by
  obtain ⟨hnd, hinv⟩ := hm
  unfold cleanFold
  split
  case isTrue hcond =>
    have hcond' : c.email ≠ "" ∧ shouldSkipEmail svcEmail c.email = false := by
      simpa [Bool.and_eq_true] using hcond
    split
    · split
      · refine ⟨keysNodup_mapSet m c.email c hnd, fun p hp => ?_⟩
        rcases mem_entries_mapSet m c.email c p hp with h' | h'
        · exact hinv p h'
        · subst h'
          exact ⟨rfl, hcond'.1, hcond'.2⟩
      · exact ⟨hnd, hinv⟩
    · refine ⟨keysNodup_mapSet m c.email c hnd, fun p hp => ?_⟩
      rcases mem_entries_mapSet m c.email c p hp with h' | h'
      · exact hinv p h'
      · subst h'
        exact ⟨rfl, hcond'.1, hcond'.2⟩
  case isFalse => exact ⟨hnd, hinv⟩

theorem foldClean_inv (svcEmail : Option String) (cs : List Contact) :
    ∀ m : CMap, CleanInv svcEmail m →
      CleanInv svcEmail (cs.foldl (cleanFold svcEmail) m) := by
  induction cs with
  | nil => exact fun m hm => hm
  | cons c rest ih =>
    intro m hm
    exact ih _ (cleanFold_inv svcEmail m c hm)

theorem cleanInv_nil (svcEmail : Option String) : CleanInv svcEmail [] :=
  ⟨List.nodup_nil, fun p hp => by simp at hp⟩

theorem mapGet_cleanFold_isSome (svcEmail : Option String) (m : CMap)
    (c : Contact) (k : String) (h : (mapGet m k).isSome) :
    (mapGet (cleanFold svcEmail m c) k).isSome := by
  unfold cleanFold
  have hset : ∀ v : Contact, (mapGet (mapSet m c.email v) k).isSome := by
    intro v
    by_cases hk : k = c.email
    · subst hk
      rw [mapGet_mapSet_self]
      rfl
    · rw [mapGet_mapSet_ne m c.email k v hk]
      exact h
  split
  · split
    · split
      · exact hset c
      · exact h
    · exact hset c
  · exact h

theorem mapGet_cleanFold_self_isSome (svcEmail : Option String) (m : CMap)
    (c : Contact) (hne : c.email ≠ "")
    (hskip : shouldSkipEmail svcEmail c.email = false) :
    (mapGet (cleanFold svcEmail m c) c.email).isSome := by
  unfold cleanFold
  rw [if_pos (by simp [hne, hskip])]
  split
  · split
    · rw [mapGet_mapSet_self]
      rfl
    · rename_i ex heq hlt
      rw [heq]
      rfl
  · rw [mapGet_mapSet_self]
    rfl

theorem foldClean_isSome_mono (svcEmail : Option String) (cs : List Contact) :
    ∀ (m : CMap) (k : String), (mapGet m k).isSome →
      (mapGet (cs.foldl (cleanFold svcEmail) m) k).isSome := by
  induction cs with
  | nil => exact fun m k h => h
  | cons c rest ih =>
    intro m k h
    exact ih _ k (mapGet_cleanFold_isSome svcEmail m c k h)

theorem foldClean_coverage (svcEmail : Option String) (cs : List Contact)
    (e : String) (he : e ∈ cs.map (fun c => c.email)) (hne : e ≠ "")
    (hskip : shouldSkipEmail svcEmail e = false) :
    ∀ m : CMap, (mapGet (cs.foldl (cleanFold svcEmail) m) e).isSome := by
  induction cs with
  | nil => simp at he
  | cons c rest ih =>
    intro m
    by_cases hmem : e ∈ rest.map (fun c => c.email)
    · exact ih hmem _
    · have hce : c.email = e := by
        simp only [List.map_cons, List.mem_cons] at he
        rcases he with h | h
        · exact h.symm
        · exact absurd h hmem
      have h0 : (mapGet (cleanFold svcEmail m c) e).isSome := by
        rw [← hce] at hne hskip ⊢
        exact mapGet_cleanFold_self_isSome svcEmail m c hne hskip
      exact foldClean_isSome_mono svcEmail rest _ e h0

theorem cleanedContacts_coverage (svcEmail : Option String) (cs : List Contact)
    (e : String) (he : e ∈ cs.map (fun c => c.email)) (hne : e ≠ "")
    (hskip : shouldSkipEmail svcEmail e = false) :
    ∃ w ∈ cleanedContacts svcEmail cs, w.email = e := by
  have hs := foldClean_coverage svcEmail cs e he hne hskip []
  obtain ⟨w, hw⟩ := Option.isSome_iff_exists.mp hs
  have hinv := foldClean_inv svcEmail cs [] (cleanInv_nil svcEmail)
  have hmem := mapGet_mem_entries _ e w hw
  exact ⟨w, mem_values_of_mapGet _ e w hw, (hinv.2 (e, w) hmem).1⟩

theorem values_map_email_eq_keys (m : CMap)
    (hinv : ∀ p ∈ m, p.2.email = p.1) :
    (mapValues m).map (fun c => c.email) = mapKeys m := by
  unfold mapValues mapKeys
  rw [List.map_map]
  exact List.map_congr_left hinv

theorem cleanedContacts_emails_nodup (svcEmail : Option String) (cs : List Contact) :
    ((cleanedContacts svcEmail cs).map (fun c => c.email)).Nodup := by
  have hinv := foldClean_inv svcEmail cs [] (cleanInv_nil svcEmail)
  unfold cleanedContacts
  rw [values_map_email_eq_keys _ (fun p hp => (hinv.2 p hp).1)]
  exact hinv.1

theorem cleanedContacts_not_skipped (svcEmail : Option String) (cs : List Contact)
    (w : Contact) (h : w ∈ cleanedContacts svcEmail cs) :
    shouldSkipEmail svcEmail w.email = false := by
  have hinv := foldClean_inv svcEmail cs [] (cleanInv_nil svcEmail)
  unfold cleanedContacts at h
  simp only [mapValues, List.mem_map] at h
  obtain ⟨p, hp, hpw⟩ := h
  obtain ⟨h1, h2, h3⟩ := hinv.2 p hp
  rw [← hpw, h1]
  exact h3

theorem shouldSkipEmail_empty (svcEmail : Option String) :
    shouldSkipEmail svcEmail "" = true := rfl

theorem ne_empty_of_not_skipped (svcEmail : Option String) (e : String)
    (h : shouldSkipEmail svcEmail e = false) : e ≠ "" := by
  intro he
  rw [he, shouldSkipEmail_empty] at h
  cases h

theorem readSheetContacts_emails_nodup (svcEmail : Option String)
    (sheet : List Contact) (h : (sheet.map (fun c => c.email)).Nodup) :
    ((readSheetContacts svcEmail sheet).map (fun c => c.email)).Nodup := by
  unfold readSheetContacts
  exact List.Nodup.sublist (List.Sublist.map _ (List.filter_sublist sheet)) h

theorem mem_readSheetContacts (svcEmail : Option String) (sheet : List Contact)
    (c₀ : Contact) (h₀ : c₀ ∈ sheet) (hne : c₀.email ≠ "")
    (hskip : shouldSkipEmail svcEmail c₀.email = false) :
    c₀ ∈ readSheetContacts svcEmail sheet := by
  unfold readSheetContacts
  exact List.mem_filter.mpr ⟨h₀, by simp [hne, hskip]⟩

/-! ## The claims -/

/-- C1: for every run whose calendar fetch, store read and store write all
succeed, every contact in the post-run store has a lastMeeting no smaller
than the pre-run stored value for that exact email, and no smaller than
the start of every selected event that lists that (non-excluded) email as
an attendee: lastMeeting is advanced to the later of the existing value
and each observed event start, and never regresses. -/
theorem lastMeeting_monotone_of_run
    (svcEmail : Option String) (now : Nat)
    (insightFor : String → Event → Option Insight)
    (events : List Event) (sheet : List Contact)
    (hNodup : (sheet.map (fun c => c.email)).Nodup)
    (c : Contact)
    (hc : c ∈ (runSync svcEmail now insightFor (Except.ok events) none none sheet).store) :
    (∀ c₀ ∈ sheet, c₀.email = c.email → c₀.lastMeeting ≤ c.lastMeeting) ∧
    (∀ ev ∈ events, c.email ∈ ev.attendees →
      shouldSkipEmail svcEmail c.email = false → ev.start ≤ c.lastMeeting) := by
  have hE := readSheetContacts_emails_nodup svcEmail sheet hNodup
  have hMI : MapInv svcEmail (readSheetContacts svcEmail sheet)
      (events.foldl
        (processEvent svcEmail now insightFor (readSheetContacts svcEmail sheet)) []) :=
    foldEvents_inv svcEmail now insightFor _ events hE []
      (mapInv_nil svcEmail _)
  by_cases hEmp : (processRun svcEmail now insightFor events
      (readSheetContacts svcEmail sheet)).isEmpty
  · have hstore : (runSync svcEmail now insightFor (Except.ok events) none none sheet).store
        = sheet := by
      simp [runSync, hEmp]
    rw [hstore] at hc
    constructor
    · intro c₀ h₀ he
      have hceq : c₀ = c := List.inj_on_of_nodup_map hNodup h₀ hc he
      rw [hceq]
    · intro ev hev hatt hskip
      exfalso
      have hne := ne_empty_of_not_skipped svcEmail c.email hskip
      obtain ⟨cc, hcc, _⟩ :=
        foldEvents_coverage svcEmail now insightFor (readSheetContacts svcEmail sheet)
          events ev c.email hev hatt hne hskip []
      have hmem := mem_values_of_mapGet _ _ _ hcc
      have : processRun svcEmail now insightFor events (readSheetContacts svcEmail sheet)
          = [] := by
        simpa [List.isEmpty_iff] using hEmp
      rw [show processRun svcEmail now insightFor events (readSheetContacts svcEmail sheet)
            = mapValues (events.foldl
                (processEvent svcEmail now insightFor (readSheetContacts svcEmail sheet)) [])
          from rfl] at this
      rw [this] at hmem
      cases hmem
  · have hstore : (runSync svcEmail now insightFor (Except.ok events) none none sheet).store
        = cleanedContacts svcEmail
            (processRun svcEmail now insightFor events (readSheetContacts svcEmail sheet)) := by
      simp [runSync, hEmp]
    rw [hstore] at hc
    have hcup := mem_of_mem_cleanedContacts svcEmail _ c hc
    obtain ⟨k, hk⟩ := exists_key_of_mem_values _ c hMI.1 hcup
    obtain ⟨hke, hskipk, hbound⟩ := hMI.2 k c hk
    constructor
    · intro c₀ h₀ he
      have hek : c₀.email = k := he.trans hke
      refine hbound c₀ ?_ hek
      exact mem_readSheetContacts svcEmail sheet c₀ h₀
        (by rw [hek]; exact ne_empty_of_not_skipped svcEmail k hskipk)
        (by rw [hek]; exact hskipk)
    · intro ev hev hatt hskip
      have hne := ne_empty_of_not_skipped svcEmail c.email hskip
      obtain ⟨cc, hcc, hle⟩ :=
        foldEvents_coverage svcEmail now insightFor (readSheetContacts svcEmail sheet)
          events ev c.email hev hatt hne hskip []
      rw [← hke] at hk
      rw [hk] at hcc
      injection hcc with hcc
      rw [hcc]
      exact hle

/-- Witness for C1: a pre-run contact stored with lastMeeting 5 is merged
against an event at time 10 and ends no earlier than it started. -/
theorem lastMeeting_monotone_witness :
    (([(⟨"Alice", "a@x.com", "Interested", "ns", "n", 5, 1⟩ : Contact)].map
        (fun c => c.email)).Nodup) ∧
    (⟨"Alice", "a@x.com", "Interested", "ns", "n", 5, 1⟩ : Contact).lastMeeting ≤
      (⟨"Alice", "a@x.com", "Interested", "ns", "n", 10, 1⟩ : Contact).lastMeeting :=
  ⟨by decide,
   (lastMeeting_monotone_of_run none 7 (fun _ _ => none)
      [⟨"Pitch", "", ["a@x.com"], "", 10⟩]
      [⟨"Alice", "a@x.com", "Interested", "ns", "n", 5, 1⟩]
      (by decide) ⟨"Alice", "a@x.com", "Interested", "ns", "n", 10, 1⟩ (by decide)).1
     ⟨"Alice", "a@x.com", "Interested", "ns", "n", 5, 1⟩ (by decide) (by decide)⟩

theorem mem_runSync_store (svcEmail : Option String) (now : Nat)
    (insightFor : String → Event → Option Insight)
    (fetchResult : Except String (List Event))
    (readError writeError : Option String) (sheet : List Contact) (c : Contact)
    (hc : c ∈ (runSync svcEmail now insightFor fetchResult readError writeError sheet).store) :
    c ∈ sheet ∨ shouldSkipEmail svcEmail c.email = false := by
  cases fetchResult with
  | error m => exact Or.inl (by simpa [runSync] using hc)
  | ok events =>
    cases readError with
    | some m =>
      by_cases hEmp : (processRun svcEmail now insightFor events ([] : List Contact)).isEmpty
      · exact Or.inl (by simpa [runSync, hEmp] using hc)
      · cases writeError with
        | some w => exact Or.inl (by simpa [runSync, hEmp] using hc)
        | none =>
          refine Or.inr (cleanedContacts_not_skipped svcEmail
            (processRun svcEmail now insightFor events []) c ?_)
          simpa [runSync, hEmp] using hc
    | none =>
      by_cases hEmp : (processRun svcEmail now insightFor events
          (readSheetContacts svcEmail sheet)).isEmpty
      · exact Or.inl (by simpa [runSync, hEmp] using hc)
      · cases writeError with
        | some w => exact Or.inl (by simpa [runSync, hEmp] using hc)
        | none =>
          refine Or.inr (cleanedContacts_not_skipped svcEmail
            (processRun svcEmail now insightFor events (readSheetContacts svcEmail sheet))
            c ?_)
          simpa [runSync, hEmp] using hc

/-- C2 counterexample: a run that processes no contacts performs no write
at all, so a contact with the excluded transcript-relay address that was
already sitting in the store is still there after the run, contradicting
"after any run no Contact with an excluded email exists in the store". -/
theorem excluded_email_persists_when_no_write :
    (⟨"Fred", "fred@fireflies.ai", "", "", "", 5, 1⟩ : Contact) ∈
      (runSync none 1 (fun _ _ => none) (Except.ok []) none none
        [⟨"Fred", "fred@fireflies.ai", "", "", "", 5, 1⟩]).store ∧
    shouldSkipEmail none "fred@fireflies.ai" = true := by
  decide

/-- C2 amended: excluded emails are never created or updated - any contact
with an excluded email present after a run was already present, unchanged,
in the pre-run store (the no-write case); the written contact list of any
run that does write contains no excluded email at all; and consequently
the claimed property holds as a preserved invariant: a run over a store
that contains no excluded contact leaves a store that contains none. -/
theorem excluded_emails_never_created_or_updated :
    (∀ (svcEmail : Option String) (now : Nat)
       (insightFor : String → Event → Option Insight)
       (fetchResult : Except String (List Event))
       (readError writeError : Option String) (sheet : List Contact) (c : Contact),
       c ∈ (runSync svcEmail now insightFor fetchResult readError writeError sheet).store →
       shouldSkipEmail svcEmail c.email = true → c ∈ sheet) ∧
    (∀ (svcEmail : Option String) (cs : List Contact) (c : Contact),
       c ∈ cleanedContacts svcEmail cs → shouldSkipEmail svcEmail c.email = false) ∧
    (∀ (svcEmail : Option String) (now : Nat)
       (insightFor : String → Event → Option Insight)
       (fetchResult : Except String (List Event))
       (readError writeError : Option String) (sheet : List Contact),
       (∀ c₀ ∈ sheet, shouldSkipEmail svcEmail c₀.email = false) →
       ∀ c ∈ (runSync svcEmail now insightFor fetchResult readError writeError sheet).store,
         shouldSkipEmail svcEmail c.email = false) := by
  have hpre : ∀ (svcEmail : Option String) (now : Nat)
      (insightFor : String → Event → Option Insight)
      (fetchResult : Except String (List Event))
      (readError writeError : Option String) (sheet : List Contact) (c : Contact),
      c ∈ (runSync svcEmail now insightFor fetchResult readError writeError sheet).store →
      shouldSkipEmail svcEmail c.email = true → c ∈ sheet := by
    intro svcEmail now insightFor fetchResult readError writeError sheet c hc hskip
    rcases mem_runSync_store svcEmail now insightFor fetchResult readError writeError
        sheet c hc with h | h
    · exact h
    · rw [h] at hskip
      cases hskip
  refine ⟨hpre, fun svcEmail cs c hc => cleanedContacts_not_skipped svcEmail cs c hc,
    fun svcEmail now insightFor fetchResult readError writeError sheet hclean c hc => ?_⟩
  cases hB : shouldSkipEmail svcEmail c.email with
  | false => rfl
  | true =>
    exact absurd hB (by
      rw [hclean c (hpre svcEmail now insightFor fetchResult readError writeError
        sheet c hc hB)]
      simp)

/-- Witness for C2 amended: the persistence part applied to a run over an
empty calendar, the write-filter part applied to a one-element write, and
the invariant-preservation part applied to a writing run over a clean
store. -/
theorem excluded_emails_never_created_or_updated_witness :
    ((⟨"Fred", "fred@fireflies.ai", "", "", "", 5, 1⟩ : Contact) ∈
      ([⟨"Fred", "fred@fireflies.ai", "", "", "", 5, 1⟩] : List Contact)) ∧
    (shouldSkipEmail none
      (⟨"G", "good@acme.com", "", "", "", 1, 1⟩ : Contact).email = false) ∧
    (shouldSkipEmail none
      (⟨"A", "a@x.com", "New Contact", "Initial outreach", "", 10, 2⟩ : Contact).email
        = false) :=
  ⟨excluded_emails_never_created_or_updated.1 none 1 (fun _ _ => none)
    (Except.ok []) none none [⟨"Fred", "fred@fireflies.ai", "", "", "", 5, 1⟩]
    ⟨"Fred", "fred@fireflies.ai", "", "", "", 5, 1⟩ (by decide) (by decide),
   excluded_emails_never_created_or_updated.2.1 none
    [⟨"G", "good@acme.com", "", "", "", 1, 1⟩]
    ⟨"G", "good@acme.com", "", "", "", 1, 1⟩ (by decide),
   excluded_emails_never_created_or_updated.2.2 none 2 (fun _ _ => none)
    (Except.ok [⟨"Pitch", "", ["a@x.com"], "", 10⟩]) none none
    [⟨"Bob", "b@y.com", "", "", "", 5, 1⟩] (by decide)
    ⟨"A", "a@x.com", "New Contact", "Initial outreach", "", 10, 2⟩ (by decide)⟩

/-- C3 counterexample: the in-run map, the store lookup and the write-side
dedup all key on the raw email string, so one event whose attendee list
spells the same address in two letter cases yields two records in the
written store, although both spellings lowercase-normalize identically. -/
theorem case_variant_emails_make_two_contacts :
    ((runSync none 1 (fun _ _ => none)
        (Except.ok [⟨"", "", ["Jane@x.com", "jane@x.com"], "", 10⟩]) none none []).store.map
      (fun c => c.email)) = ["Jane@x.com", "jane@x.com"] ∧
    lowerStr "Jane@x.com" = lowerStr "jane@x.com" := by
  decide

/-- C3 amended: a written store holds exactly one Contact per exact
(case-sensitive) email string - the merge and dedup key on the raw email,
not on its lowercase normalization. -/
theorem store_unique_per_exact_email (svcEmail : Option String) (cs : List Contact) :
    ((cleanedContacts svcEmail cs).map (fun c => c.email)).Nodup :=
  cleanedContacts_emails_nodup svcEmail cs

/-- C4 counterexample: the same attendee on two selected events, with an
insight resolvable for each; the merged contact carries the FIRST event's
insight fields (the second event only advances lastMeeting), so the claim
that status/nextStep/notes equal the later insight's fields is false. -/
theorem second_insight_does_not_overwrite :
    (processRun none 1
        (fun _ ev => if ev.start = 100 then some ⟨"S1", "N1", "T1"⟩
                     else some ⟨"S2", "N2", "T2"⟩)
        [⟨"", "", ["a@x.com"], "", 100⟩, ⟨"", "", ["a@x.com"], "", 200⟩] []).map
      (fun c => (c.status, c.nextStep, c.notes, c.lastMeeting)) =
      [("S1", "N1", "T1", 200)] ∧ ("S1" : String) ≠ "S2" := by
  decide

/-- C4 amended: when the same attendee email is observed on two events in
one run, the merged contact's status, nextStep and notes equal the insight
resolved for the FIRST event (the second occurrence short-circuits before
notes resolution), while lastMeeting is the maximum of the two event
times. -/
theorem first_insight_wins_within_run
    (svcEmail : Option String) (now : Nat)
    (insightFor : String → Event → Option Insight)
    (e : String) (ev1 ev2 : Event) (I1 : Insight)
    (h1 : ev1.attendees = [e]) (h2 : ev2.attendees = [e])
    (hskip : shouldSkipEmail svcEmail e = false)
    (hI : insightFor e ev1 = some I1)
    (hs : I1.status ≠ "") (hn : I1.nextStep ≠ "") (ht : I1.notes ≠ "") :
    processRun svcEmail now insightFor [ev1, ev2] [] =
      [{ name := getNameFromEmail e, email := e, status := I1.status,
         nextStep := I1.nextStep, notes := I1.notes,
         lastMeeting := max ev1.start ev2.start, createdAt := now }] := by
  have hne : e ≠ "" := ne_empty_of_not_skipped svcEmail e hskip
  by_cases hcmp : ev1.start < ev2.start
  · have hmax : max ev1.start ev2.start = ev2.start := Nat.max_eq_right (le_of_lt hcmp)
    simp [processRun, processEvent, processAttendee, mapValues, mapGet, mapSet,
          baseContact, mergeInsight, bumpLastMeeting, newContact, jsOr,
          h1, h2, hne, hskip, hI, hs, hn, ht, hcmp, hmax]
  · have hmax : max ev1.start ev2.start = ev1.start :=
      Nat.max_eq_left (Nat.not_lt.mp hcmp)
    simp [processRun, processEvent, processAttendee, mapValues, mapGet, mapSet,
          baseContact, mergeInsight, bumpLastMeeting, newContact, jsOr,
          h1, h2, hne, hskip, hI, hs, hn, ht, hcmp, hmax]

/-- Witness for C4 amended: two concrete events at times 100 and 200 with
the same attendee; the merged record carries the first insight and the
later meeting time. -/
theorem first_insight_wins_within_run_witness :
    shouldSkipEmail none "a@x.com" = false ∧
    processRun none 1
        (fun _ ev => if ev.start = 100 then some ⟨"S1", "N1", "T1"⟩ else none)
        [⟨"", "", ["a@x.com"], "", 100⟩, ⟨"", "", ["a@x.com"], "", 200⟩] [] =
      [{ name := getNameFromEmail "a@x.com", email := "a@x.com", status := "S1",
         nextStep := "N1", notes := "T1", lastMeeting := max 100 200, createdAt := 1 }] :=
  ⟨by decide,
   first_insight_wins_within_run none 1
     (fun _ ev => if ev.start = 100 then some ⟨"S1", "N1", "T1"⟩ else none)
     "a@x.com" ⟨"", "", ["a@x.com"], "", 100⟩ ⟨"", "", ["a@x.com"], "", 200⟩
     ⟨"S1", "N1", "T1"⟩ rfl rfl (by decide) (by decide) (by decide) (by decide) (by decide)⟩

/-- C5 counterexample: a pre-run contact whose email appears in no selected
event is absent from the store a successful writing run leaves behind -
the write persists only the contacts processed in this run. -/
theorem unobserved_contact_dropped_on_write :
    ((runSync none 2 (fun _ _ => none) (Except.ok [⟨"Pitch", "", ["a@x.com"], "", 10⟩])
        none none [⟨"Bob", "b@y.com", "", "", "", 5, 1⟩]).store.map (fun c => c.email))
      = ["a@x.com"] ∧
    (⟨"Bob", "b@y.com", "", "", "", 5, 1⟩ : Contact) ∈
      ([⟨"Bob", "b@y.com", "", "", "", 5, 1⟩] : List Contact) := by
  decide

/-- C5 amended: a pre-run contact survives a successful run whenever its
email is observed - listed as a non-excluded attendee of some selected
event; a pre-run contact whose email is not observed is dropped from the
written set (and the store only stays intact when the run writes nothing). -/
theorem observed_contacts_persist
    (svcEmail : Option String) (now : Nat)
    (insightFor : String → Event → Option Insight)
    (events : List Event) (sheet : List Contact)
    (hNodup : (sheet.map (fun c => c.email)).Nodup)
    (c₀ : Contact) (ev : Event)
    (_h₀ : c₀ ∈ sheet) (hev : ev ∈ events) (hatt : c₀.email ∈ ev.attendees)
    (hskip : shouldSkipEmail svcEmail c₀.email = false) :
    ∃ c' ∈ (runSync svcEmail now insightFor (Except.ok events) none none sheet).store,
      c'.email = c₀.email := by
  have hne := ne_empty_of_not_skipped svcEmail c₀.email hskip
  have hE := readSheetContacts_emails_nodup svcEmail sheet hNodup
  have hMI : MapInv svcEmail (readSheetContacts svcEmail sheet)
      (events.foldl
        (processEvent svcEmail now insightFor (readSheetContacts svcEmail sheet)) []) :=
    foldEvents_inv svcEmail now insightFor _ events hE [] (mapInv_nil svcEmail _)
  obtain ⟨cc, hcc, _⟩ :=
    foldEvents_coverage svcEmail now insightFor (readSheetContacts svcEmail sheet)
      events ev c₀.email hev hatt hne hskip []
  have hval : cc ∈ processRun svcEmail now insightFor events
      (readSheetContacts svcEmail sheet) :=
    mem_values_of_mapGet _ _ _ hcc
  have hcce : cc.email = c₀.email := (hMI.2 c₀.email cc hcc).1
  by_cases hEmp : (processRun svcEmail now insightFor events
      (readSheetContacts svcEmail sheet)).isEmpty
  · exfalso
    have : processRun svcEmail now insightFor events (readSheetContacts svcEmail sheet)
        = [] := by simpa [List.isEmpty_iff] using hEmp
    rw [this] at hval
    cases hval
  · have hstore : (runSync svcEmail now insightFor (Except.ok events) none none sheet).store
        = cleanedContacts svcEmail
            (processRun svcEmail now insightFor events (readSheetContacts svcEmail sheet)) := by
      simp [runSync, hEmp]
    rw [hstore]
    refine cleanedContacts_coverage svcEmail _ c₀.email ?_ hne hskip
    rw [← hcce]
    exact List.mem_map_of_mem _ hval

/-- Witness for C5 amended: the stored contact b@y.com is an attendee of
the one selected event and is still present after the run. -/
theorem observed_contacts_persist_witness :
    ∃ c' ∈ (runSync none 2 (fun _ _ => none)
        (Except.ok [⟨"Pitch", "", ["b@y.com"], "", 10⟩]) none none
        [⟨"Bob", "b@y.com", "", "", "", 5, 1⟩]).store,
      c'.email = (⟨"Bob", "b@y.com", "", "", "", 5, 1⟩ : Contact).email :=
  observed_contacts_persist none 2 (fun _ _ => none)
    [⟨"Pitch", "", ["b@y.com"], "", 10⟩] [⟨"Bob", "b@y.com", "", "", "", 5, 1⟩]
    (by decide) ⟨"Bob", "b@y.com", "", "", "", 5, 1⟩ ⟨"Pitch", "", ["b@y.com"], "", 10⟩
    (by decide) (by decide) (by decide) (by decide)

/-- C6 counterexample: a failing store read is caught inside
getSheetContacts and turned into an empty contact list, so the run
continues and even reports success (and, the fetch having produced an
attendee, rewrites the store from the empty merge base) - the read failure
does not abort the run. -/
theorem read_failure_treated_as_empty_store :
    (runSync none 1 (fun _ _ => none) (Except.ok [⟨"Pitch", "", ["a@x.com"], "", 10⟩])
        (some "sheet read failed") none [⟨"Bob", "b@y.com", "", "", "", 5, 1⟩]).result
      = Except.ok ⟨1, 1⟩ := rfl

/-- C6 amended: a calendar fetch failure and a store write failure are
run-fatal - each yields a single structured error and leaves the store in
its pre-run state - but a store read failure is caught and treated as an
empty store: the run proceeds exactly as if the store had been read
empty. -/
theorem fatal_failures_and_read_fallback :
    (∀ (svcEmail : Option String) (now : Nat)
       (insightFor : String → Event → Option Insight)
       (readError writeError : Option String) (sheet : List Contact) (m : String),
       runSync svcEmail now insightFor (Except.error m) readError writeError sheet =
         { result := Except.error m, store := sheet }) ∧
    (∀ (svcEmail : Option String) (now : Nat)
       (insightFor : String → Event → Option Insight)
       (events : List Event) (sheet : List Contact) (m : String),
       ¬(processRun svcEmail now insightFor events
           (readSheetContacts svcEmail sheet)).isEmpty = true →
       runSync svcEmail now insightFor (Except.ok events) none (some m) sheet =
         { result := Except.error m, store := sheet }) ∧
    (∀ (svcEmail : Option String) (now : Nat)
       (insightFor : String → Event → Option Insight)
       (events : List Event) (writeError : Option String) (sheet : List Contact)
       (m : String),
       (runSync svcEmail now insightFor (Except.ok events) (some m) writeError sheet).result
         = (runSync svcEmail now insightFor (Except.ok events) none writeError []).result) := by
  refine ⟨fun svcEmail now insightFor readError writeError sheet m => rfl,
          fun svcEmail now insightFor events sheet m h => by simp [runSync, h],
          fun svcEmail now insightFor events writeError sheet m => ?_⟩
  by_cases hEmp : (processRun svcEmail now insightFor events ([] : List Contact)).isEmpty
  · simp [runSync, readSheetContacts, hEmp]
  · cases writeError with
    | some w => simp [runSync, readSheetContacts, hEmp]
    | none => simp [runSync, readSheetContacts, hEmp]

/-- Witness for C6 amended: a run over one event with a non-excluded
attendee attempts the write; injecting a write failure yields the error
result and the untouched (empty) store. -/
theorem fatal_failures_and_read_fallback_witness :
    ¬(processRun none 1 (fun _ _ => none) [⟨"Pitch", "", ["a@x.com"], "", 10⟩]
        (readSheetContacts none ([] : List Contact))).isEmpty = true ∧
    runSync none 1 (fun _ _ => none) (Except.ok [⟨"Pitch", "", ["a@x.com"], "", 10⟩])
        none (some "write failed") [] =
      { result := Except.error "write failed", store := [] } :=
  ⟨by decide,
   fatal_failures_and_read_fallback.2.1 none 1 (fun _ _ => none)
     [⟨"Pitch", "", ["a@x.com"], "", 10⟩] [] "write failed" (by decide)⟩

theorem length_dropWhile_le {α : Type} (p : α → Bool) (l : List α) :
    (l.dropWhile p).length ≤ l.length := by
  induction l with
  | nil => exact le_refl _
  | cons a t ih =>
    rw [List.dropWhile_cons]
    split
    · exact le_trans ih (Nat.le_succ _)
    · exact le_refl _

theorem jsTrim_length_le (s : String) : (jsTrim s).length ≤ s.length := by
  have h1 : (s.data.dropWhile jsWhitespace).length ≤ s.data.length :=
    length_dropWhile_le _ _
  have h2 : ((s.data.dropWhile jsWhitespace).reverse.dropWhile jsWhitespace).length ≤
      (s.data.dropWhile jsWhitespace).length := by
    have := length_dropWhile_le jsWhitespace (s.data.dropWhile jsWhitespace).reverse
    simpa using this
  show (((s.data.dropWhile jsWhitespace).reverse.dropWhile jsWhitespace).reverse).length
      ≤ s.data.length
  rw [List.length_reverse]
  omega

/-- C7 counterexample: with no language-model key configured and notes long
enough to pass the length gate, getAIClient is called before the try block
and its exception escapes analyzeWithAI to the caller - the extractor does
raise in the unconfigured-client case. -/
theorem analyzeWithAI_raises_without_client :
    analyzeWithAI ⟨false, false, Except.ok none⟩
        "This is a long enough meeting note content." "Jane" "Gmail"
      = (Except.error "No AI API key configured", 0) := rfl

/-- C7 amended: whenever a language-model client is configured, and also
whenever the content is short enough to short-circuit, analyzeWithAI never
raises - every model-call failure, empty response or unparseable response
degrades to a returned default Insight; only the no-client configuration
error with long-enough content escapes to the caller. -/
theorem analyzeWithAI_safe_when_client_configured :
    (∀ (env : AIEnv) (notesContent contactName sourceType : String),
       (env.openaiKey || env.geminiKey) = true →
       ∃ i, (analyzeWithAI env notesContent contactName sourceType).1 = Except.ok i) ∧
    (∀ (env : AIEnv) (notesContent contactName sourceType : String),
       notesContent.length < 20 →
       ∃ i, (analyzeWithAI env notesContent contactName sourceType).1 = Except.ok i) := by
  constructor
  · intro env notesContent contactName sourceType hk
    unfold analyzeWithAI
    split
    · exact ⟨insufficientInsight sourceType, rfl⟩
    · rw [if_neg (by simp [hk])]
      split
      · exact ⟨_, rfl⟩
      · exact ⟨_, rfl⟩
      · split
        · exact ⟨_, rfl⟩
        · exact ⟨_, rfl⟩
  · intro env notesContent contactName sourceType hlen
    have hle := jsTrim_length_le notesContent
    unfold analyzeWithAI
    rw [if_pos (by simp [Nat.lt_of_le_of_lt hle hlen])]
    exact ⟨insufficientInsight sourceType, rfl⟩

/-- Witness for C7 amended: an OpenAI-configured environment whose model
call returns an empty completion still yields an ok Insight. -/
theorem analyzeWithAI_safe_witness :
    ((⟨true, false, Except.ok none⟩ : AIEnv).openaiKey ||
      (⟨true, false, Except.ok none⟩ : AIEnv).geminiKey) = true ∧
    ∃ i, (analyzeWithAI ⟨true, false, Except.ok none⟩
        "This is a long enough meeting note content." "Jane" "Gmail").1 = Except.ok i :=
  ⟨by decide,
   analyzeWithAI_safe_when_client_configured.1 ⟨true, false, Except.ok none⟩
     "This is a long enough meeting note content." "Jane" "Gmail" (by decide)⟩

/-- C8: note text shorter than the 20-character threshold (the empty text
included) short-circuits analyzeWithAI to the insufficient-content default
Insight with zero language-model invocations. -/
theorem short_content_short_circuits
    (env : AIEnv) (notesContent contactName sourceType : String)
    (hlen : notesContent.length < 20) :
    analyzeWithAI env notesContent contactName sourceType =
      (Except.ok (insufficientInsight sourceType), 0) := by
  have hle := jsTrim_length_le notesContent
  unfold analyzeWithAI
  rw [if_pos (by simp [Nat.lt_of_le_of_lt hle hlen])]

/-- Witness for C8: a nine-character note is rejected without any model
call even though a client is configured and would reply. -/
theorem short_content_short_circuits_witness :
    ("tiny note" : String).length < 20 ∧
    analyzeWithAI ⟨true, false, Except.ok (some "x")⟩ "tiny note" "Jane" "Gmail" =
      (Except.ok (insufficientInsight "Gmail"), 0) :=
  ⟨by decide,
   short_content_short_circuits ⟨true, false, Except.ok (some "x")⟩
     "tiny note" "Jane" "Gmail" (by decide)⟩

/-- C9: a model response that is not JSON as a whole but embeds a
well-formed object is recovered by the brace-regex fallback, and the
returned Insight carries the embedded object's fields, status
"Interested" included, with exactly one model invocation. -/
theorem embedded_json_recovered :
    analyzeWithAI
        ⟨true, false, Except.ok (some
          "blah blah \x7b\"status\":\"Interested\",\"nextStep\":\"Schedule follow-up\",\"notes\":\"Positive\"\x7d trailing")⟩
        "This is a long enough meeting note content." "Jane" "Gmail"
      = (Except.ok ⟨"Interested", "Schedule follow-up", "Positive"⟩, 1) := rfl

/-- C10 counterexample: the business-attendee disjunct of the relevance
filter treats every non-viehq, non-consumer domain as external business,
so the "Weekly Team Standup" event whose only attendee is at
internalteam.com is INCLUDED, contrary to the claimed exclusion; the Acme
Ventures intro is included as claimed. -/
theorem internalteam_standup_included :
    eventMatchesFilter
        ⟨"Weekly Team Standup", "", ["member@internalteam.com"], "jake@viehq.com", 100⟩
      = true ∧
    filterCalendarEvents
        [⟨"Weekly Team Standup", "", ["member@internalteam.com"], "jake@viehq.com", 100⟩,
         ⟨"Intro call with Acme Ventures", "", ["jane@acmeventures.com"], "jake@viehq.com", 200⟩]
      = [⟨"Weekly Team Standup", "", ["member@internalteam.com"], "jake@viehq.com", 100⟩,
         ⟨"Intro call with Acme Ventures", "", ["jane@acmeventures.com"], "jake@viehq.com", 200⟩] := by
  decide

/-- C10 amended: with the standup's attendees at the organization's own
domain (viehq.com) - the only domain the filter treats as internal - the
keywordless standup is excluded while the Acme Ventures intro (keyword
and pattern matches) is included. -/
theorem standup_excluded_acme_included :
    filterCalendarEvents
        [⟨"Weekly Team Standup", "", ["member@viehq.com"], "jake@viehq.com", 100⟩,
         ⟨"Intro call with Acme Ventures", "", ["jane@acmeventures.com"], "jake@viehq.com", 200⟩]
      = [⟨"Intro call with Acme Ventures", "", ["jane@acmeventures.com"], "jake@viehq.com", 200⟩] := by
  decide

end FundingCrm
